import Mathlib

/-!
Shallow embedding of the `network-test-rs` library core and proofs about it.

Conventions of the embedding:
* machine integers (`u8`, `u32`, `u64`, `usize`) are modelled as `Nat`, with
  wrapping arithmetic made explicit (`% 256`) where the source wraps and with
  Rust's saturating subtraction matching `Nat` truncated subtraction;
* `f64` arithmetic is idealised as exact rational arithmetic (`ℚ`);
* wall-clock reads (`precise_time_ms`) and monotonic reads (`Instant::now`)
  are passed in as explicit `Nat` parameters (milliseconds / nanoseconds);
* code that can panic (integer division by a runtime value) returns `Option`;
* transport I/O results are passed in as explicit environment values;
* the opaque bincode codec is modelled by decode/encode function parameters.
-/

namespace NetworkTest

/-- Bytes of the wire stream (`u8` values). -/
abbrev Byte := Nat

/-- The `std::io::ErrorKind` values constructed by the source. -/
inductive ErrKind where
  | NotConnected
  | AlreadyExists
  | InvalidData
deriving DecidableEq

/-- Division as performed by Rust integer division: panics (here: `none`) when
the divisor is zero. -/
def cdiv (a b : Nat) : Option Nat := if b = 0 then none else some (a / b)

/-- Wrapping `u8` subtraction (`a.wrapping_sub(b)` for `u8` values). -/
def u8wrapSub (a b : Nat) : Nat := (a % 256 + 256 - b % 256) % 256

/-- Wrapping `u8` addition (`a.wrapping_add(b)` for `u8` values). -/
def u8wrapAdd (a b : Nat) : Nat := (a + b) % 256

/-- Internal control messages (`message.rs`): `Ping(u8, u64)` and
`Pong(u8, u64, u64)`. -/
inductive InternalMessage where
  | Ping (tick : Nat) (time : Nat)
  | Pong (tick : Nat) (clientTime : Nat) (serverTime : Nat)
deriving DecidableEq

/-- The moving-average estimator of `time.rs` (`struct MovingAverage`),
with `f64` idealised as `ℚ`. -/
structure MovingAverage where
  size : Nat
  index : Nat
  used : Nat
  average : ℚ
  values : List ℚ
deriving DecidableEq

/-- `MovingAverage::new(size)`. -/
def MovingAverage.new (size : Nat) : MovingAverage :=
  { size := size, index := 0, used := 0, average := 0, values := List.replicate size 0 }

/-- `MovingAverage::get()`. -/
def MovingAverage.get (a : MovingAverage) : ℚ := a.average

/-- `MovingAverage::update(value, ratio)`: write the blended sample at the
cursor, advance the cursor circularly, recompute the mean over filled slots. -/
def MovingAverage.update (a : MovingAverage) (value r : ℚ) : MovingAverage :=
  let values := a.values.set a.index (a.average * (1 - r) + value * r)
  let index := a.index + 1
  let used := if a.used < a.size then a.used + 1 else a.used
  let index := if index = a.size then 0 else index
  { size := a.size, index := index, used := used,
    average := values.sum / (used : ℚ), values := values }

/-- `static AVERAGE_SIZE: usize = 16`. -/
def AVERAGE_SIZE : Nat := 16

/-- The clock-sync timer of `time.rs` (`struct Timer`). `Instant`s are
absolute nanosecond/millisecond counts supplied by the caller. -/
structure Timer where
  tick : Nat
  ticks_per_second : Nat
  clock_shift : MovingAverage
  last_wait : Nat
  accumulated_wait : Nat
  last_ping : Nat
  average_rtt : MovingAverage
deriving DecidableEq

/-- `Timer::new(ticks_per_second)`; `inow` stands for the two `Instant::now()`
reads at construction time. -/
def Timer.new (ticks_per_second inow : Nat) : Timer :=
  { tick := 0, ticks_per_second := ticks_per_second,
    clock_shift := MovingAverage.new AVERAGE_SIZE,
    last_wait := inow, accumulated_wait := 0, last_ping := inow,
    average_rtt := MovingAverage.new AVERAGE_SIZE }

/-- `Timer::clone()`: keeps tick and tick rate, resets estimators and pacing. -/
def Timer.cloneF (t : Timer) (inow : Nat) : Timer :=
  { tick := t.tick, ticks_per_second := t.ticks_per_second,
    clock_shift := MovingAverage.new AVERAGE_SIZE,
    last_wait := inow, accumulated_wait := 0, last_ping := inow,
    average_rtt := MovingAverage.new AVERAGE_SIZE }

/-- `Timer::rtt()`. -/
def Timer.rttF (t : Timer) : ℚ := t.average_rtt.get

/-- `Timer::clock()`. -/
def Timer.clockF (t : Timer) : ℚ := t.clock_shift.get

/-- The `InternalMessage::Pong` arm of `Timer::receive`: update the RTT
estimator with the sample, and the clock-shift estimator when the sample
passes the outlier check against the post-update RTT mean. -/
def Timer.handlePong (t : Timer) (now ptick clientTime serverTime : Nat) : Option Timer := do
  let tick_duration ← cdiv 1000 t.ticks_per_second
  let tick_diff := u8wrapSub t.tick ptick
  let expected_rtt : ℚ := ((tick_diff - 1) * tick_duration : Nat)
  let actual_rtt : ℚ := (now - clientTime - tick_duration : Nat)
  let sample : ℚ := (expected_rtt + actual_rtt) / 2
  let rtt' := t.average_rtt.update sample 1
  let t' : Timer := { t with average_rtt := rtt' }
  if sample ≤ rtt'.get * (3 / 2) then
    let d : ℚ := (((serverTime : ℚ) - (clientTime : ℚ)) + ((serverTime : ℚ) - (now : ℚ))) / 2
    pure { t' with clock_shift := t'.clock_shift.update d (1 / 2) }
  else
    pure t'

/-- One iteration of the message loop in `Timer::receive`: a `Ping` is echoed
as a `Pong`, a `Pong` updates the estimators. The second `precise_time_ms()`
read in the `Ping` arm is modelled by the same `now` parameter. -/
def Timer.handleMessage (now : Nat) (acc : Timer × List InternalMessage)
    (m : InternalMessage) : Option (Timer × List InternalMessage) :=
  match m with
  | .Ping ptick time => some (acc.1, acc.2 ++ [InternalMessage.Pong ptick time now])
  | .Pong ptick ct st => do
      let t ← acc.1.handlePong now ptick ct st
      pure (t, acc.2)

/-- `Timer::receive(messages)`: maybe emit a `Ping`, process incoming
messages, advance the wrapping tick counter, return the outgoing messages.
`now` is `precise_time_ms()` in milliseconds, `inow` the `Instant::now()`
read in milliseconds used for the ping cadence. -/
def Timer.receiveF (t : Timer) (now inow : Nat) (messages : List InternalMessage) :
    Option (Timer × List InternalMessage) := do
  let cadence ← cdiv 1000 t.ticks_per_second
  let start : Timer × List InternalMessage :=
    if inow - t.last_ping > cadence * 8 then
      ({ t with last_ping := inow }, [InternalMessage.Ping t.tick now])
    else (t, [])
  let res ← messages.foldlM (Timer.handleMessage now) start
  pure ({ res.1 with tick := u8wrapAdd res.1.tick 1 }, res.2)

/-- `Timer::sleep()`: `elapsed` is `last_wait.elapsed()` in nanoseconds,
`inow2` the `Instant::now()` read after sleeping. Returns the duration passed
to `thread::sleep` (0 when no sleep happens) and the updated timer. -/
def Timer.sleepF (t : Timer) (elapsed inow2 : Nat) : Option (Nat × Timer) := do
  let desired_wait ← cdiv 1000000000 t.ticks_per_second
  let w := t.accumulated_wait + elapsed
  if w ≤ desired_wait then
    pure (desired_wait - w, { t with accumulated_wait := 0, last_wait := inow2 })
  else
    pure (0, { t with accumulated_wait := w - desired_wait, last_wait := inow2 })

section Codec

variable {M I : Type}

/-- The `while` loop of `MessageIterator::next` (`message.rs`), indexed
scanning over the buffer. `from_bytes` is modelled by the decode parameters,
which return the decoded value together with its encoded size. The loop runs
at most `buffer.length + 1` iterations; `fuel` makes the recursion structural
and is supplied with that bound by `mnext`. -/
def nextLoopF (decI : List Byte → Option (I × Nat)) (decM : List Byte → Option (M × Nat))
    (buffer : List Byte) : Nat → Nat → List I → Nat × List I × Option M
  | 0, index, queue => (index, queue, none)
  | fuel + 1, index, queue =>
    if h : index < buffer.length then
      if buffer.get ⟨index, h⟩ = 0 then
        match decI (buffer.drop (index + 1)) with
        | some (msg, bytes) =>
            nextLoopF decI decM buffer fuel (index + (bytes + 1)) (queue ++ [msg])
        | none => nextLoopF decI decM buffer fuel (index + 1) queue
      else if buffer.get ⟨index, h⟩ = 1 then
        match decM (buffer.drop (index + 1)) with
        | some (msg, bytes) => (index + (bytes + 1), queue, some msg)
        | none => nextLoopF decI decM buffer fuel (index + 1) queue
      else nextLoopF decI decM buffer fuel (index + 1) queue
    else (index, queue, none)

/-- `MessageIterator::next`: scan the buffer from offset 0, drop everything
before the final offset, return (new buffer, new internal queue, found
application message). -/
def mnext (decI : List Byte → Option (I × Nat)) (decM : List Byte → Option (M × Nat))
    (buffer : List Byte) (queue : List I) : List Byte × List I × Option M :=
  if buffer.isEmpty then (buffer, queue, none)
  else
    let r := nextLoopF decI decM buffer (buffer.length + 1) 0 queue
    (buffer.drop r.1, r.2.1, r.2.2)

/-- Modelled from the spec: the decoding algorithm of section 4.3, written as
a recursion on the unconsumed suffix of the buffer (tag 0 drains an internal
message, tag 1 yields the call's result and stops, any undecodable or unknown
byte is skipped). Used as the specification side of the refinement proof for
`mnext`. -/
def scanSpec (decI : List Byte → Option (I × Nat)) (decM : List Byte → Option (M × Nat)) :
    List Byte → List I → List Byte × List I × Option M
  | [], queue => ([], queue, none)
  | t :: rest, queue =>
    if t = 0 then
      match decI rest with
      | some (msg, bytes) => scanSpec decI decM (rest.drop bytes) (queue ++ [msg])
      | none => scanSpec decI decM rest queue
    else if t = 1 then
      match decM rest with
      | some (msg, bytes) => (rest.drop bytes, queue, some msg)
      | none => scanSpec decI decM rest queue
    else scanSpec decI decM rest queue
termination_by l _ => l.length
decreasing_by
  all_goals simp_wf
  all_goals simp [Nat.lt_succ_iff]

/-- A frame of the wire stream: one tagged encoded message. -/
inductive Frame (M I : Type) where
  | app (m : M)
  | internal (i : I)

/-- Encoding of one frame: `tag (1 byte) || payload`. -/
def encodeFrame (encI : I → List Byte) (encM : M → List Byte) : Frame M I → List Byte
  | .internal i => 0 :: encI i
  | .app m => 1 :: encM m

/-- Encoding of a frame sequence: concatenation of the encoded frames. -/
def encodeStream (encI : I → List Byte) (encM : M → List Byte) (fs : List (Frame M I)) :
    List Byte :=
  (fs.map (encodeFrame encI encM)).flatten

/-- The application messages of a frame sequence, in order. -/
def frameApps : List (Frame M I) → List M
  | [] => []
  | .app m :: fs => m :: frameApps fs
  | .internal _ :: fs => frameApps fs

/-- The internal messages of a frame sequence, in order. -/
def frameInternals : List (Frame M I) → List I
  | [] => []
  | .app _ :: fs => frameInternals fs
  | .internal i :: fs => i :: frameInternals fs

/-- Repeatedly call `mnext` (up to `fuel` times) until it returns `none`,
collecting the application messages in call order; returns the final buffer,
the final internal queue and the collected application messages. -/
def drainRec (decI : List Byte → Option (I × Nat)) (decM : List Byte → Option (M × Nat)) :
    Nat → List Byte → List I → List Byte × List I × List M
  | 0, buffer, queue => (buffer, queue, [])
  | fuel + 1, buffer, queue =>
    match mnext decI decM buffer queue with
    | (buffer', queue', some m) =>
      let r := drainRec decI decM fuel buffer' queue'
      (r.1, r.2.1, m :: r.2.2)
    | (buffer', queue', none) => (buffer', queue', [])

end Codec

/-- The lifecycle states of a `Remote` (`server.rs`, `enum RemoteState`). -/
inductive RemoteState where
  | Accepted
  | Connected
  | Closing
  | Closed
deriving DecidableEq

/-- One server-side connection (`server.rs`, `struct Remote`). The transport
connection object is abstracted away; its I/O results are supplied through
environment parameters of `read`/`write`. -/
structure Remote where
  incoming : List Byte
  outgoing : List Byte
  internal_messages : List InternalMessage
  timer : Timer
  state : RemoteState
deriving DecidableEq

/-- `Remote::from_connection(connection, timer)`. -/
def Remote.from_connection (timer : Timer) : Remote :=
  { incoming := [], outgoing := [], internal_messages := [], timer := timer,
    state := RemoteState.Accepted }

/-- `Remote::send_raw(prefix, message)`: on successful serialization append
`tag || payload` to the outgoing buffer, on failure do nothing. -/
def Remote.send_raw {α : Type} (enc : α → Option (List Byte)) (tag : Byte) (m : α)
    (r : Remote) : Remote :=
  match enc m with
  | some bytes => { r with outgoing := r.outgoing ++ tag :: bytes }
  | none => r

/-- `Remote::send(message)`: frame with tag 1. -/
def Remote.send {α : Type} (enc : α → Option (List Byte)) (m : α) (r : Remote) : Remote :=
  r.send_raw enc 1 m

/-- `Remote::close()`. -/
def Remote.close (r : Remote) : Remote × Except ErrKind Unit :=
  match r.state with
  | RemoteState.Accepted => ({ r with state := RemoteState.Closing }, Except.ok ())
  | RemoteState.Connected => ({ r with state := RemoteState.Closing }, Except.ok ())
  | RemoteState.Closing => (r, Except.error ErrKind.NotConnected)
  | RemoteState.Closed => (r, Except.error ErrKind.NotConnected)

/-- `Remote::accepted()`. -/
def Remote.accepted (r : Remote) : Bool := r.state = RemoteState.Accepted

/-- `Remote::connected()`. -/
def Remote.connectedB (r : Remote) : Bool := r.state = RemoteState.Connected

/-- `Remote::closed()`. -/
def Remote.closedB (r : Remote) : Bool := r.state = RemoteState.Closed

/-- `Remote::try_connect()`. -/
def Remote.try_connect (r : Remote) : Remote :=
  if r.state = RemoteState.Accepted then { r with state := RemoteState.Connected } else r

/-- `Remote::try_close()`: a `Closing` remote shuts its transport down and
becomes `Closed`. -/
def Remote.try_close (r : Remote) : Remote :=
  if r.state = RemoteState.Closing then { r with state := RemoteState.Closed } else r

/-- Outcome of one `connection.read(&mut incoming)` call: either an error or
the bytes appended to the incoming buffer. -/
structure ReadEnv where
  readErr : Bool
  readData : List Byte
deriving DecidableEq

/-- `Remote::read()`: promote `Accepted` to `Connected`, then read from the
transport; a read error requests closing. -/
def Remote.read (env : ReadEnv) (r : Remote) : Remote :=
  let r := r.try_connect
  if env.readErr then (r.close).1
  else { r with incoming := r.incoming ++ env.readData }

/-- Inputs of one `Remote::write()` call: the wall-clock and instant reads of
the inner `Timer::receive`, and whether `connection.write` succeeds. -/
structure WriteEnv where
  now : Nat
  inow : Nat
  writeOk : Bool
deriving DecidableEq

/-- `Remote::write()`: drain the internal queue through `Timer::receive`,
frame the produced internal messages with tag 0, attempt the transport write
(clearing the outgoing buffer only on success), finally `try_close`. -/
def Remote.write (encInt : InternalMessage → Option (List Byte)) (env : WriteEnv)
    (r : Remote) : Option Remote := do
  let msgs := r.internal_messages
  let r := { r with internal_messages := [] }
  let res ← r.timer.receiveF env.now env.inow msgs
  let r := { r with timer := res.1 }
  let r := res.2.foldl (fun r m => r.send_raw encInt 0 m) r
  let r := if !r.outgoing.isEmpty && env.writeOk then { r with outgoing := [] } else r
  pure r.try_close

/-- `Vec::swap_remove(i)`: remove the element at `i`, moving the last element
into its place; returns the new vector and the removed element. -/
def swapRemove {α : Type} (l : List α) (i : Nat) : List α × Option α :=
  match l.getLast? with
  | some lastElem => ((l.set i lastElem).dropLast, l.get? i)
  | none => (l, none)

/-- The removal loop of `Server::closed`:
`for (offset, index) in closed_indexes.iter().enumerate()
   { closed.push(remotes.swap_remove(index - offset)) }`. -/
def removeLoopAux {α : Type} : List Nat → List α → List α → Nat → List α × List α
  | [], remotes, acc, _ => (remotes, acc)
  | i :: rest, remotes, acc, offset =>
    let p := swapRemove remotes (i - offset)
    removeLoopAux rest p.1 (acc ++ p.2.toList) (offset + 1)

/-- Run the removal loop of `Server::closed` from offset 0. -/
def removeLoop {α : Type} (idxs : List Nat) (remotes : List α) : List α × List α :=
  removeLoopAux idxs remotes [] 0

/-- The server (`server.rs`, `struct Server`). The listening transport is
modelled by the queue of pending peer addresses its `accept()` calls will
deliver before reporting "would block". -/
structure Server (D : Type) where
  listener : Option (List Nat)
  remotes : List (Remote × D)
  closed_indexes : List Nat
  timer : Timer
  accepted_done : Bool
  connected_done : Bool
  closed_done : Bool
deriving DecidableEq

/-- `Server::new(ticks_per_second)`. -/
def Server.new (D : Type) (ticks_per_second inow : Nat) : Server D :=
  { listener := none, remotes := [], closed_indexes := [],
    timer := Timer.new ticks_per_second inow,
    accepted_done := false, connected_done := false, closed_done := false }

/-- `Server::accepted_with(data)`: once per tick, drain pending acceptances,
keeping those for which the factory returns user data; always return the
remotes currently in `Accepted` state. `inow` models the `Instant::now()`
reads of the `Timer::clone` calls. -/
def Server.accepted_with {D : Type} (factory : Nat → Option D) (inow : Nat)
    (s : Server D) : Server D × List (Remote × D) :=
  let s :=
    if s.accepted_done = false then
      let s := { s with accepted_done := true }
      match s.listener with
      | some pending =>
        { s with
          listener := some [],
          remotes := s.remotes ++ pending.filterMap (fun addr =>
            (factory addr).map (fun d => (Remote.from_connection (s.timer.cloneF inow), d))) }
      | none => s
    else s
  (s, s.remotes.filter (fun rd => rd.1.accepted))

/-- `Server::connected()`: once per tick, `read()` every remote (when the
listener exists); always return the remotes currently in `Connected` state.
`envs i` is the read outcome for the remote at position `i`. -/
def Server.connected {D : Type} (envs : Nat → ReadEnv) (s : Server D) :
    Server D × List (Remote × D) :=
  let s :=
    if s.connected_done = false then
      let s := { s with connected_done := true }
      { s with remotes := s.remotes.mapIdx (fun i rd =>
          if s.listener.isSome then (rd.1.read (envs i), rd.2) else rd) }
    else s
  (s, s.remotes.filter (fun rd => rd.1.connectedB))

/-- The write sweep of `Server::closed`: `write()` every remote in order and
record (in ascending order) the indexes of those that are `Closed`
afterwards. -/
def Server.sweepClosed {D : Type} (encInt : InternalMessage → Option (List Byte))
    (envs : Nat → WriteEnv) : List (Remote × D) → Nat → Option (List (Remote × D) × List Nat)
  | [], _ => some ([], [])
  | rd :: rest, i => do
    let r' ← rd.1.write encInt (envs i)
    let tailRes ← Server.sweepClosed encInt envs rest (i + 1)
    pure ((r', rd.2) :: tailRes.1,
      if r'.closedB then i :: tailRes.2 else tailRes.2)

/-- `Server::closed()`: once per tick, run the write sweep and collect the
indexes of closed remotes; always run the removal loop over the collected
indexes, clear them, and return the removed remotes. -/
def Server.closed {D : Type} (encInt : InternalMessage → Option (List Byte))
    (envs : Nat → WriteEnv) (s : Server D) : Option (Server D × List (Remote × D)) := do
  let s ←
    if s.closed_done = false then do
      let p ← Server.sweepClosed encInt envs s.remotes 0
      pure { s with closed_done := true, remotes := p.1,
                    closed_indexes := s.closed_indexes ++ p.2 }
    else pure s
  let q := removeLoop s.closed_indexes s.remotes
  pure ({ s with remotes := q.1, closed_indexes := [] }, q.2)

/-- `Server::sleep()`: reset the three per-tick flags, then pace via the
reference timer. -/
def Server.sleepF {D : Type} (elapsed inow2 : Nat) (s : Server D) :
    Option (Nat × Server D) := do
  let p ← s.timer.sleepF elapsed inow2
  pure (p.1, { s with accepted_done := false, connected_done := false,
                      closed_done := false, timer := p.2 })

/-- The client (`client.rs`, `struct Client`); only the parts needed here.
`connState` models `connection.is_some()`. -/
structure Client where
  connState : Bool
  incoming : List Byte
  internal_messages : List InternalMessage
  timer : Timer

/-- `Client::send_raw(prefix, message)`: fails with `NotConnected` when there
is no connection, with `InvalidData` when serialization fails, and otherwise
propagates the immediate transport write's result (`writeRes`). -/
def Client.send_raw {α : Type} (enc : α → Option (List Byte))
    (writeRes : Except ErrKind Nat) (tag : Byte) (m : α) (c : Client) :
    Except ErrKind Unit :=
  if c.connState then
    match enc m with
    | some _ => writeRes.map (fun _ => ())
    | none => Except.error ErrKind.InvalidData
  else Except.error ErrKind.NotConnected

/-- `Client::send(message)`: frame with tag 1. -/
def Client.send {α : Type} (enc : α → Option (List Byte))
    (writeRes : Except ErrKind Nat) (m : α) (c : Client) : Except ErrKind Unit :=
  Client.send_raw enc writeRes 1 m c

/-! Concrete instances used to evaluate the embedding on explicit inputs. -/

/-- A timer with tick rate 10 constructed at instant 0. -/
def timer10 : Timer := Timer.new 10 0

/-- A remote with empty buffers, the `timer10` timer, and the given state. -/
def mkRemote (st : RemoteState) : Remote :=
  { incoming := [], outgoing := [], internal_messages := [], timer := timer10, state := st }

/-- A concrete internal-message encoder that always succeeds. -/
def encInt0 : InternalMessage → Option (List Byte) := fun _ => some [9]

/-- A concrete write environment: instant 0, transport writes succeed. -/
def wenv0 : Nat → WriteEnv := fun _ => { now := 0, inow := 0, writeOk := true }

/-- A server holding three remotes in states `Closing`, `Closing`, `Connected`
(tagged with user data 0, 1, 2), about to run its closed phase. -/
def s0 : Server Nat :=
  { listener := some [], closed_indexes := [], timer := timer10,
    remotes := [(mkRemote RemoteState.Closing, 0), (mkRemote RemoteState.Closing, 1),
                (mkRemote RemoteState.Connected, 2)],
    accepted_done := false, connected_done := false, closed_done := false }

/-- A server holding one remote in state `Closing` (user data 0). -/
def s1 : Server Nat :=
  { listener := some [], closed_indexes := [], timer := timer10,
    remotes := [(mkRemote RemoteState.Closing, 0)],
    accepted_done := false, connected_done := false, closed_done := false }

/-- The `s1` remote after one `write()`: timer ticked once, state `Closed`. -/
def r1' : Remote :=
  { incoming := [], outgoing := [], internal_messages := [],
    timer := { timer10 with tick := 1 }, state := RemoteState.Closed }

/-- The `s1` server after one `closed()` call: remote consumed, flag set. -/
def s1' : Server Nat :=
  { listener := some [], closed_indexes := [], timer := timer10, remotes := [],
    accepted_done := false, connected_done := false, closed_done := true }

/-- A concrete one-byte prefix codec on `Nat` used as an instance of the
opaque self-describing codec: every value is encoded as a single byte. -/
def encNat : Nat → List Byte := fun n => [n]

/-- Decoder matching `encNat`: reads one byte, reports size 1. -/
def decNat : List Byte → Option (Nat × Nat) := fun l =>
  match l with
  | b :: _ => some (b, 1)
  | [] => none

/-- An encoder that always fails to serialize. -/
def encNone : Nat → Option (List Byte) := fun _ => none

/-- A connected client with tick rate 10. -/
def client0 : Client :=
  { connState := true, incoming := [], internal_messages := [], timer := timer10 }

/-- The RTT sample computed by the `Pong` arm of `Timer::receive`
(`time.rs` lines 105-111): half the sum of the expected RTT derived from the
wrapping tick difference and the actual RTT derived from the echoed
timestamp, all with saturating `u64` arithmetic before the `f64` casts. -/
def pongSample (t : Timer) (now ptick ct : Nat) : ℚ :=
  ((((u8wrapSub t.tick ptick - 1) * (1000 / t.ticks_per_second) : Nat) : ℚ)
    + (((now - ct - 1000 / t.ticks_per_second) : Nat) : ℚ)) / 2

/-- The clock-offset sample computed by the `Pong` arm of `Timer::receive`
(`time.rs` lines 118-122). -/
def pongDiff (now ct st : Nat) : ℚ :=
  (((st : ℚ) - (ct : ℚ)) + ((st : ℚ) - (now : ℚ))) / 2

/-- The state invariant tying a `MovingAverage` of capacity `N`, fed with the
ratio-1 samples `vs` in order, to the window of the most recent `N` samples
(zero-padded on the left for the first lap). -/
def maInv (N : Nat) (vs : List ℚ) (a : MovingAverage) : Prop :=
  a.size = N ∧
  a.index = vs.length % N ∧
  a.used = min vs.length N ∧
  a.values.length = N ∧
  a.values.rotate a.index = (List.replicate N (0 : ℚ) ++ vs).drop vs.length ∧
  a.average = a.values.sum / (a.used : ℚ)

/-! Helper lemmas about the frame codec. -/

section CodecLemmas

variable {M I : Type}
variable (decI : List Byte → Option (I × Nat)) (decM : List Byte → Option (M × Nat))

/-- The indexed loop of `MessageIterator::next`, run with enough fuel from any
start index, computes the suffix-recursive scan on the unconsumed suffix. -/
lemma nextLoopF_shift (buffer : List Byte) :
    ∀ (fuel index : Nat) (queue : List I), buffer.length - index < fuel →
      (buffer.drop (nextLoopF decI decM buffer fuel index queue).1,
        (nextLoopF decI decM buffer fuel index queue).2) =
      scanSpec decI decM (buffer.drop index) queue := by
  intro fuel
  induction fuel with
  | zero => intro index queue h; omega
  | succ fuel ih =>
    intro index queue h
    by_cases hidx : index < buffer.length
    · have hdrop : buffer.drop index = buffer[index] :: buffer.drop (index + 1) :=
        List.drop_eq_getElem_cons hidx
      rw [hdrop]
      simp only [nextLoopF, dif_pos hidx]
      by_cases h0 : buffer.get ⟨index, hidx⟩ = 0
      · rw [if_pos h0]
        have h0' : buffer[index] = 0 := h0
        cases hI : decI (buffer.drop (index + 1)) with
        | none =>
          simp only [scanSpec, h0', if_pos rfl, hI]
          exact ih (index + 1) queue (by omega)
        | some p =>
          obtain ⟨msg, bytes⟩ := p
          simp only [scanSpec, h0', if_pos rfl, hI]
          have := ih (index + (bytes + 1)) (queue ++ [msg]) (by omega)
          rw [this]
          have harg : buffer.drop (index + (bytes + 1)) =
              (buffer.drop (index + 1)).drop bytes := by
            rw [List.drop_drop]; ring_nf
          rw [harg]
          simp
      · rw [if_neg h0]
        have h0' : ¬ buffer[index] = 0 := h0
        by_cases h1 : buffer.get ⟨index, hidx⟩ = 1
        · rw [if_pos h1]
          have h1' : buffer[index] = 1 := h1
          cases hM : decM (buffer.drop (index + 1)) with
          | none =>
            simp only [scanSpec, h0', if_neg h0', h1', if_pos rfl, hM]
            exact ih (index + 1) queue (by omega)
          | some p =>
            obtain ⟨msg, bytes⟩ := p
            simp only [scanSpec, h0', if_neg h0', h1', if_pos rfl, hM]
            have harg : buffer.drop (index + (bytes + 1)) =
                (buffer.drop (index + 1)).drop bytes := by
              rw [List.drop_drop]; ring_nf
            rw [harg]
            simp
        · rw [if_neg h1]
          have h1' : ¬ buffer[index] = 1 := h1
          simp only [scanSpec, if_neg h0', if_neg h1']
          exact ih (index + 1) queue (by omega)
    · simp only [nextLoopF, dif_neg hidx]
      rw [List.drop_eq_nil_of_le (by omega)]
      simp [scanSpec]

/-- `MessageIterator::next` equals the suffix-recursive scan of section 4.3
of the spec, on every buffer, queue and codec. -/
lemma mnext_eq_scanSpec (buffer : List Byte) (queue : List I) :
    mnext decI decM buffer queue = scanSpec decI decM buffer queue := by
  by_cases hb : buffer.isEmpty
  · have : buffer = [] := List.isEmpty_iff.mp hb
    subst this
    simp [mnext, scanSpec]
  · unfold mnext
    rw [if_neg hb]
    have := nextLoopF_shift decI decM buffer (buffer.length + 1) 0 queue (by omega)
    rw [List.drop_zero] at this
    exact this

/-- One `next()` call only ever appends to the internal queue. -/
lemma nextLoopF_queue_suffix (buffer : List Byte) :
    ∀ (fuel index : Nat) (queue : List I),
      ∃ qs, (nextLoopF decI decM buffer fuel index queue).2.1 = queue ++ qs := by
  intro fuel
  induction fuel with
  | zero => intro index queue; exact ⟨[], by simp [nextLoopF]⟩
  | succ fuel ih =>
    intro index queue
    simp only [nextLoopF]
    by_cases hidx : index < buffer.length
    · rw [dif_pos hidx]
      by_cases h0 : buffer.get ⟨index, hidx⟩ = 0
      · rw [if_pos h0]
        cases hI : decI (buffer.drop (index + 1)) with
        | none => exact ih (index + 1) queue
        | some p =>
          obtain ⟨msg, bytes⟩ := p
          obtain ⟨qs, hqs⟩ := ih (index + (bytes + 1)) (queue ++ [msg])
          exact ⟨msg :: qs, by simpa using hqs⟩
      · rw [if_neg h0]
        by_cases h1 : buffer.get ⟨index, hidx⟩ = 1
        · rw [if_pos h1]
          cases hM : decM (buffer.drop (index + 1)) with
          | none => exact ih (index + 1) queue
          | some p => exact ⟨[], by simp⟩
        · rw [if_neg h1]
          exact ih (index + 1) queue
    · rw [dif_neg hidx]
      exact ⟨[], by simp⟩

/-- Unfolding of `mnext` at an internal frame that decodes. -/
lemma mnext_cons_zero_some {rest : List Byte} {queue : List I} {i : I} {b : Nat}
    (h : decI rest = some (i, b)) :
    mnext decI decM (0 :: rest) queue = mnext decI decM (rest.drop b) (queue ++ [i]) := by
  rw [mnext_eq_scanSpec, mnext_eq_scanSpec]
  simp [scanSpec, h]

/-- Unfolding of `mnext` at an application frame that decodes. -/
lemma mnext_cons_one_some {rest : List Byte} {queue : List I} {m : M} {b : Nat}
    (h : decM rest = some (m, b)) :
    mnext decI decM (1 :: rest) queue = (rest.drop b, queue, some m) := by
  rw [mnext_eq_scanSpec]
  simp [scanSpec, h]

/-- `mnext` on the empty buffer returns no message and changes nothing. -/
lemma mnext_nil (queue : List I) :
    mnext decI decM [] queue = ([], queue, (none : Option M)) := rfl

/-- The resulting buffer of one `next()` call is a suffix of the input
buffer: everything before the final scan offset is removed. -/
lemma mnext_buffer_suffix (buffer : List Byte) (queue : List I) :
    ∃ n, (mnext decI decM buffer queue).1 = buffer.drop n := by
  by_cases hb : buffer.isEmpty
  · exact ⟨0, by simp [mnext, hb]⟩
  · exact ⟨(nextLoopF decI decM buffer (buffer.length + 1) 0 queue).1, by simp [mnext, hb]⟩

/-- The resulting queue of one `next()` call extends the input queue. -/
lemma mnext_queue_suffix (buffer : List Byte) (queue : List I) :
    ∃ qs, (mnext decI decM buffer queue).2.1 = queue ++ qs := by
  by_cases hb : buffer.isEmpty
  · exact ⟨[], by simp [mnext, hb]⟩
  · obtain ⟨qs, hqs⟩ := nextLoopF_queue_suffix decI decM buffer (buffer.length + 1) 0 queue
    exact ⟨qs, by simp [mnext, hb, hqs]⟩

/-- Appending one encoded frame to the stream. -/
lemma encodeStream_cons (encI : I → List Byte) (encM : M → List Byte) (f : Frame M I)
    (fs : List (Frame M I)) :
    encodeStream encI encM (f :: fs) =
      encodeFrame encI encM f ++ encodeStream encI encM fs := by
  simp [encodeStream]

end CodecLemmas

/-- C8. Frame codec scan step: one `next()` call on any buffer contents scans
from offset 0 and behaves exactly as the spec's suffix recursion `scanSpec`:
a tag-0 byte whose following bytes decode as an internal message pushes it to
the internal queue and advances past tag plus payload, a failed tag-0 decode
advances one byte, a decodable tag-1 frame becomes the call's result and
stops the scan, any other byte advances one byte; moreover all bytes before
the final offset are removed (the resulting buffer is a suffix of the input)
and the internal queue is only ever appended to, even when the call returns
no application message. -/
theorem c8_next_scan_step {M I : Type} (decI : List Byte → Option (I × Nat))
    (decM : List Byte → Option (M × Nat)) (buffer : List Byte) (queue : List I) :
    mnext decI decM buffer queue = scanSpec decI decM buffer queue ∧
    (∃ n, (mnext decI decM buffer queue).1 = buffer.drop n) ∧
    (∃ qs, (mnext decI decM buffer queue).2.1 = queue ++ qs) :=
  ⟨mnext_eq_scanSpec decI decM buffer queue,
   mnext_buffer_suffix decI decM buffer queue,
   mnext_queue_suffix decI decM buffer queue⟩

section RoundTrip

variable {M I : Type}
variable (decI : List Byte → Option (I × Nat)) (decM : List Byte → Option (M × Nat))
variable (encI : I → List Byte) (encM : M → List Byte)

/-- One `next()` call at an internal frame of a validly encoded stream drains
it into the queue and continues on the rest of the stream. -/
lemma mnext_stream_internal
    (hI : ∀ (i : I) (rest : List Byte), decI (encI i ++ rest) = some (i, (encI i).length))
    (i : I) (fs : List (Frame M I)) (queue : List I) :
    mnext decI decM (encodeStream encI encM (Frame.internal i :: fs)) queue =
      mnext decI decM (encodeStream encI encM fs) (queue ++ [i]) := by
  rw [encodeStream_cons]
  show mnext decI decM (0 :: (encI i ++ encodeStream encI encM fs)) queue = _
  rw [mnext_cons_zero_some decI decM (hI i (encodeStream encI encM fs))]
  rw [List.drop_left]

/-- One `next()` call at an application frame of a validly encoded stream
returns its message and leaves the rest of the stream. -/
lemma mnext_stream_app
    (hM : ∀ (m : M) (rest : List Byte), decM (encM m ++ rest) = some (m, (encM m).length))
    (m : M) (fs : List (Frame M I)) (queue : List I) :
    mnext decI decM (encodeStream encI encM (Frame.app m :: fs)) queue =
      (encodeStream encI encM fs, queue, some m) := by
  rw [encodeStream_cons]
  show mnext decI decM (1 :: (encM m ++ encodeStream encI encM fs)) queue = _
  rw [mnext_cons_one_some decI decM (hM m (encodeStream encI encM fs))]
  rw [List.drop_left]

end RoundTrip

/-- C2. Frame codec round-trip: decoding a buffer that is exactly the
concatenation of validly encoded frames (tag 0 plus an encoded internal
message, tag 1 plus an encoded application message, in any interleaving) by
repeatedly calling `next()` until it returns none yields the application
messages in encoding order, one per call, pushes the internal messages into
the internal queue in encoding order, consumes the whole buffer, and loses,
duplicates and reorders nothing. The codec hypotheses state that the opaque
self-describing codec decodes a prefix of the stream back to the encoded
value with its encoded size. -/
theorem c2_codec_roundtrip {M I : Type} (decI : List Byte → Option (I × Nat))
    (decM : List Byte → Option (M × Nat)) (encI : I → List Byte) (encM : M → List Byte)
    (hI : ∀ (i : I) (rest : List Byte), decI (encI i ++ rest) = some (i, (encI i).length))
    (hM : ∀ (m : M) (rest : List Byte), decM (encM m ++ rest) = some (m, (encM m).length))
    (fs : List (Frame M I)) (queue : List I) :
    drainRec decI decM ((frameApps fs).length + 1) (encodeStream encI encM fs) queue =
      ([], queue ++ frameInternals fs, frameApps fs) := by
  induction fs generalizing queue with
  | nil =>
    show drainRec decI decM 1 (encodeStream encI encM []) queue = _
    simp [drainRec, encodeStream, mnext_nil, frameInternals, frameApps]
  | cons f fs ih =>
    cases f with
    | internal i =>
      show drainRec decI decM ((frameApps fs).length + 1) _ queue = _
      rw [drainRec, mnext_stream_internal decI decM encI encM hI i fs queue]
      rw [← drainRec]
      rw [ih (queue ++ [i])]
      simp [frameInternals, frameApps]
    | app m =>
      show drainRec decI decM ((frameApps fs).length + 1 + 1) _ queue = _
      rw [drainRec, mnext_stream_app decI decM encI encM hM m fs queue]
      dsimp only
      rw [ih queue]
      simp [frameInternals, frameApps]

/-- Witness for C2: the round-trip evaluated on a concrete interleaved
stream over the concrete one-byte codec. -/
theorem c2_codec_roundtrip_witness :
    drainRec decNat decNat 3
        (encodeStream encNat encNat
          [Frame.internal 5, Frame.app 7, Frame.internal 3, Frame.app 9]) [] =
      ([], [5, 3], [7, 9]) :=
  c2_codec_roundtrip decNat decNat encNat encNat
    (fun _ _ => rfl) (fun _ _ => rfl)
    [Frame.internal 5, Frame.app 7, Frame.internal 3, Frame.app 9] []

/-! Helper lemmas about the moving average. -/

/-- A fresh `MovingAverage` satisfies the invariant for the empty history. -/
lemma maInv_new (N : Nat) : maInv N [] (MovingAverage.new N) := by
  refine ⟨rfl, by simp [MovingAverage.new], by simp [MovingAverage.new],
    by simp [MovingAverage.new], ?_, by simp [MovingAverage.new]⟩
  simp [MovingAverage.new]

/-- Successor of a history length, taken modulo the capacity, matches the
cursor-wrapping test of `MovingAverage::update`. -/
lemma maSuccMod (N k : Nat) (hN : 0 < N) :
    (k + 1) % N = if k % N + 1 = N then 0 else k % N + 1 := by
  have h1 : (k + 1) % N = (k % N + 1 % N) % N := Nat.add_mod k 1 N
  rcases Nat.lt_or_ge 1 N with h2 | h2
  · rw [Nat.mod_eq_of_lt h2] at h1
    by_cases h3 : k % N + 1 = N
    · rw [if_pos h3, h1, h3, Nat.mod_self]
    · have : k % N + 1 < N := by
        have := Nat.mod_lt k hN
        omega
      rw [if_neg h3, h1, Nat.mod_eq_of_lt this]
  · have hone : N = 1 := by omega
    subst hone
    simp [Nat.mod_one]

/-- One ratio-1 `update` preserves the invariant, extending the history. -/
lemma maInv_update (N : Nat) (hN : 0 < N) (vs : List ℚ) (a : MovingAverage)
    (hInv : maInv N vs a) (v : ℚ) : maInv N (vs ++ [v]) (a.update v 1) := by
  obtain ⟨hsz, hidx, hused, hlen, hrot, havg⟩ := hInv
  have hidxlt : a.index < N := by
    rw [hidx]; exact Nat.mod_lt _ hN
  have hidxlen : a.index < a.values.length := by omega
  have hval1 : a.average * (1 - 1) + v * 1 = v := by ring
  refine ⟨hsz, ?_, ?_, ?_, ?_, rfl⟩
  · show (if a.index + 1 = a.size then 0 else a.index + 1) = (vs ++ [v]).length % N
    rw [List.length_append, List.length_singleton, maSuccMod N vs.length hN, hsz, hidx]
  · show (if a.used < a.size then a.used + 1 else a.used) = min (vs ++ [v]).length N
    rw [List.length_append, List.length_singleton, hsz, hused]
    rcases Nat.lt_or_ge vs.length N with h | h
    · rw [if_pos (by omega)]; omega
    · rw [if_neg (by omega)]; omega
  · show (a.values.set a.index _).length = N
    rw [List.length_set, hlen]
  · show (a.values.set a.index (a.average * (1 - 1) + v * 1)).rotate
        (if a.index + 1 = a.size then 0 else a.index + 1) =
      (List.replicate N (0 : ℚ) ++ (vs ++ [v])).drop (vs ++ [v]).length
    rw [hval1, hsz]
    have hset : a.values.set a.index v =
        (a.values.take a.index ++ [v]) ++ a.values.drop (a.index + 1) := by
      rw [List.set_eq_take_cons_drop v hidxlen]
      simp
    have hTv : (a.values.take a.index ++ [v]).length = a.index + 1 := by
      rw [List.length_append, List.length_take, List.length_singleton]
      omega
    have hrhs : (List.replicate N (0 : ℚ) ++ (vs ++ [v])).drop (vs ++ [v]).length =
        (a.values.drop (a.index + 1) ++ a.values.take a.index) ++ [v] := by
      rw [← List.append_assoc, List.length_append, List.length_singleton]
      rw [List.drop_append_of_le_length (by simp [List.length_append]; omega)]
      have hdd : (List.replicate N (0 : ℚ) ++ vs).drop (vs.length + 1) =
          ((List.replicate N (0 : ℚ) ++ vs).drop vs.length).drop 1 := by
        rw [List.drop_drop]
      have hcons : a.values.drop a.index =
          a.values[a.index] :: a.values.drop (a.index + 1) :=
        List.drop_eq_getElem_cons hidxlen
      rw [hdd, ← hrot, List.rotate_eq_drop_append_take (by omega), hcons]
      simp only [List.cons_append, List.drop_succ_cons, List.drop_zero, List.append_assoc]
    rw [hrhs, hset]
    by_cases hwrap : a.index + 1 = N
    · rw [if_pos hwrap, List.rotate_zero]
      have hU : a.values.drop (a.index + 1) = [] :=
        List.drop_eq_nil_of_le (by omega)
      rw [hU]
      simp
    · rw [if_neg hwrap]
      rw [List.rotate_eq_drop_append_take (by simp [List.length_append, List.length_set]; omega)]
      rw [List.drop_left' hTv, List.take_left' hTv]
      simp

/-- Feeding a sample list through ratio-1 updates establishes the invariant. -/
lemma maInv_foldl (N : Nat) (hN : 0 < N) (vs : List ℚ) :
    maInv N vs (vs.foldl (fun a v => a.update v 1) (MovingAverage.new N)) := by
  induction vs using List.reverseRecOn with
  | nil => exact maInv_new N
  | append_singleton vs v ih =>
    rw [List.foldl_append]
    exact maInv_update N hN vs _ ih v

/-- C5. MovingAverage mean: after `k ≥ 1` ratio-1 updates on a fresh
`MovingAverage` of capacity `N`, `get()` is the arithmetic mean of the `k`
samples when `k < N`, and the arithmetic mean of the most recent `N` samples
when `k ≥ N`. -/
theorem c5_moving_average_mean (N : Nat) (hN : 0 < N) (vs : List ℚ) (hvs : vs ≠ []) :
    (vs.length < N →
      (vs.foldl (fun a v => a.update v 1) (MovingAverage.new N)).get
        = vs.sum / (vs.length : ℚ)) ∧
    (N ≤ vs.length →
      (vs.foldl (fun a v => a.update v 1) (MovingAverage.new N)).get
        = (vs.drop (vs.length - N)).sum / (N : ℚ)) := by
  obtain ⟨hsz, hidx, hused, hlen, hrot, havg⟩ := maInv_foldl N hN vs
  set a := vs.foldl (fun a v => a.update v 1) (MovingAverage.new N) with ha
  have hsum : a.values.sum = ((List.replicate N (0 : ℚ) ++ vs).drop vs.length).sum := by
    rw [← hrot]
    exact ((List.rotate_perm a.values a.index).sum_eq).symm
  have hget : a.get = ((List.replicate N (0 : ℚ) ++ vs).drop vs.length).sum
      / ((min vs.length N : Nat) : ℚ) := by
    rw [MovingAverage.get, havg, hsum, hused]
  constructor
  · intro h
    have hmin : min vs.length N = vs.length := min_eq_left (Nat.le_of_lt h)
    rw [hget, hmin]
    have hw : (List.replicate N (0 : ℚ) ++ vs).drop vs.length
        = List.replicate (N - vs.length) (0 : ℚ) ++ vs := by
      rw [List.drop_append_of_le_length (by simpa using Nat.le_of_lt h),
        List.drop_replicate]
    rw [hw, List.sum_append]
    simp
  · intro h
    have hmin : min vs.length N = N := min_eq_right h
    have hk : vs.length = N + (vs.length - N) := by omega
    rw [hget, hmin]
    have hw : (List.replicate N (0 : ℚ) ++ vs).drop vs.length
        = vs.drop (vs.length - N) := by
      have h2 : (List.replicate N (0 : ℚ) ++ vs).drop
          ((List.replicate N (0 : ℚ)).length + (vs.length - N)) =
          vs.drop (vs.length - N) := List.drop_append _
      rw [List.length_replicate] at h2
      conv_lhs => rw [hk]
      exact h2
    rw [hw]

/-- Witness for C5: capacity 2, samples 1, 2, 3; the mean is the average of
the two most recent samples. -/
theorem c5_moving_average_mean_witness :
    (([1, 2, 3] : List ℚ).foldl (fun a v => a.update v 1) (MovingAverage.new 2)).get
        = 5 / 2 ∧
    (([1, 2] : List ℚ).foldl (fun a v => a.update v 1) (MovingAverage.new 4)).get
        = 3 / 2 := by
  constructor
  · have h := (c5_moving_average_mean 2 (by decide) [1, 2, 3] (by decide)).2 (by decide)
    rw [h]
    norm_num
  · have h := (c5_moving_average_mean 4 (by decide) [1, 2] (by decide)).1 (by decide)
    rw [h]
    norm_num

/-! Helper lemmas about the timer's partial operations. -/

/-- `Timer::receive`'s message loop succeeds and preserves the tick rate
whenever the tick rate is non-zero. -/
lemma foldlM_handle_isSome (now tps : Nat) (h : tps ≠ 0) :
    ∀ (msgs : List InternalMessage) (acc : Timer × List InternalMessage),
      acc.1.ticks_per_second = tps →
      ∃ res, msgs.foldlM (Timer.handleMessage now) acc = some res ∧
        res.1.ticks_per_second = tps := by
  intro msgs
  induction msgs with
  | nil => intro acc ha; exact ⟨acc, rfl, ha⟩
  | cons m msgs ih =>
    intro acc ha
    cases m with
    | Ping ptick time =>
      obtain ⟨res, hres, htps⟩ := ih (acc.1, acc.2 ++ [InternalMessage.Pong ptick time now]) ha
      exact ⟨res, by simpa [Timer.handleMessage] using hres, htps⟩
    | Pong ptick ct st =>
      have hdiv : cdiv 1000 acc.1.ticks_per_second = some (1000 / tps) := by
        simp [cdiv, ha, h]
      obtain ⟨t', ht', htps'⟩ :
          ∃ t', acc.1.handlePong now ptick ct st = some t' ∧
            t'.ticks_per_second = tps := by
        unfold Timer.handlePong
        rw [hdiv]
        simp only [Option.bind_eq_bind, Option.some_bind]
        split
        · exact ⟨_, rfl, ha⟩
        · exact ⟨_, rfl, ha⟩
      obtain ⟨res, hres, htps⟩ := ih (t', acc.2) htps'
      refine ⟨res, ?_, htps⟩
      simp [Timer.handleMessage, ht', hres]

/-- `Timer::receive` succeeds whenever the tick rate is non-zero. -/
lemma receiveF_isSome (t : Timer) (h : t.ticks_per_second ≠ 0) (now inow : Nat)
    (msgs : List InternalMessage) : ∃ res, t.receiveF now inow msgs = some res := by
  unfold Timer.receiveF
  have hdiv : cdiv 1000 t.ticks_per_second = some (1000 / t.ticks_per_second) := by
    simp [cdiv, h]
  rw [hdiv]
  simp only [Option.bind_eq_bind, Option.some_bind]
  obtain ⟨res, hres, _⟩ := foldlM_handle_isSome now t.ticks_per_second h msgs
    (if inow - t.last_ping > 1000 / t.ticks_per_second * 8 then
      ({ t with last_ping := inow }, [InternalMessage.Ping t.tick now])
     else (t, [])) (by split <;> rfl)
  exact ⟨_, by rw [hres]; rfl⟩

/-- `Remote::send_raw` never changes the lifecycle state. -/
lemma send_raw_state {α : Type} (enc : α → Option (List Byte)) (tag : Byte) (m : α)
    (r : Remote) : (r.send_raw enc tag m).state = r.state := by
  unfold Remote.send_raw
  cases enc m <;> rfl

/-- Framing a batch of internal messages never changes the lifecycle state. -/
lemma foldl_send_raw_state (enc : InternalMessage → Option (List Byte)) :
    ∀ (ms : List InternalMessage) (r : Remote),
      (ms.foldl (fun r m => r.send_raw enc 0 m) r).state = r.state := by
  intro ms
  induction ms with
  | nil => intro r; rfl
  | cons m ms ih =>
    intro r
    rw [List.foldl_cons, ih]
    exact send_raw_state enc 0 m r

/-- C1. Server closed phase at the failing input: with active remotes in
states `[Closing, Closing, Connected]` (user data 0, 1, 2), after the write
sweep the closed set S is the remotes 0 and 1; yet `closed()` returns the
remotes 0 and 2 (remote 2 is still `Connected`, outside S) and leaves the
closed remote 1 in the active set — the `swap_remove(index - offset)`
compensation of the removal loop is only valid for shifting removal, so the
call does not remove and return exactly S. -/
theorem c1_closed_phase_bug :
    (s0.remotes.map (fun rd => (rd.2, rd.1.state))
      = [(0, RemoteState.Closing), (1, RemoteState.Closing), (2, RemoteState.Connected)]) ∧
    (Server.closed encInt0 wenv0 s0).map (fun p =>
        (p.2.map (fun rd => (rd.2, rd.1.state)),
         p.1.remotes.map (fun rd => (rd.2, rd.1.state))))
      = some ([(0, RemoteState.Closed), (2, RemoteState.Connected)],
              [(1, RemoteState.Closed)]) := by
  constructor <;> decide

/-- Counterexample for C3: a second `closed()` call within the same tick does
not return the same observed set as the first call — on a server with one
`Closing` remote the first call returns one remote, the second returns
none. -/
theorem c3_second_closed_differs :
    (Server.closed encInt0 wenv0 s1).map (fun p => p.2.length) = some 1 ∧
    ((Server.closed encInt0 wenv0 s1).bind (fun p => Server.closed encInt0 wenv0 p.1)).map
      (fun p => p.2.length) = some 0 := by
  constructor <;> decide

/-- A first `accepted_with` call always leaves the accepted-phase flag set. -/
lemma accepted_with_flag {D : Type} (f : Nat → Option D) (inow : Nat) (s : Server D) :
    (Server.accepted_with f inow s).1.accepted_done = true := by
  by_cases h : s.accepted_done = false
  · cases hl : s.listener <;> simp [Server.accepted_with, h, hl]
  · cases hb : s.accepted_done with
    | false => exact absurd hb h
    | true => simp [Server.accepted_with, hb]

/-- With the accepted-phase flag set, `accepted_with` performs no I/O, no
state transitions, and only reports the remotes in `Accepted` state. -/
lemma accepted_with_of_done {D : Type} (f : Nat → Option D) (inow : Nat) (s : Server D)
    (h : s.accepted_done = true) :
    Server.accepted_with f inow s = (s, s.remotes.filter (fun rd => rd.1.accepted)) := by
  simp [Server.accepted_with, h]

/-- The observed set of `accepted_with` is the filter over the post-call
remotes. -/
lemma accepted_with_snd {D : Type} (f : Nat → Option D) (inow : Nat) (s : Server D) :
    (Server.accepted_with f inow s).2
      = (Server.accepted_with f inow s).1.remotes.filter (fun rd => rd.1.accepted) := rfl

/-- A first `connected` call always leaves the connected-phase flag set. -/
lemma connected_flag {D : Type} (envs : Nat → ReadEnv) (s : Server D) :
    (Server.connected envs s).1.connected_done = true := by
  by_cases h : s.connected_done = false
  · simp [Server.connected, h]
  · cases hb : s.connected_done with
    | false => exact absurd hb h
    | true => simp [Server.connected, hb]

/-- With the connected-phase flag set, `connected` performs no I/O, no state
transitions, and only reports the remotes in `Connected` state. -/
lemma connected_of_done {D : Type} (envs : Nat → ReadEnv) (s : Server D)
    (h : s.connected_done = true) :
    Server.connected envs s = (s, s.remotes.filter (fun rd => rd.1.connectedB)) := by
  simp [Server.connected, h]

/-- The observed set of `connected` is the filter over the post-call
remotes. -/
lemma connected_snd {D : Type} (envs : Nat → ReadEnv) (s : Server D) :
    (Server.connected envs s).2
      = (Server.connected envs s).1.remotes.filter (fun rd => rd.1.connectedB) := rfl

/-- Every successful `closed()` call leaves the closed-phase flag set and the
pending-removal index list empty. -/
lemma closed_result_flag {D : Type} (encInt : InternalMessage → Option (List Byte))
    (wenvs : Nat → WriteEnv) (s s' : Server D) (ret : List (Remote × D))
    (h : Server.closed encInt wenvs s = some (s', ret)) :
    s'.closed_done = true ∧ s'.closed_indexes = [] := by
  unfold Server.closed at h
  by_cases hs : s.closed_done = false
  · rw [if_pos hs] at h
    cases hsw : Server.sweepClosed encInt wenvs s.remotes 0 with
    | none => simp [hsw] at h
    | some p =>
      simp only [hsw, Option.bind_eq_bind, Option.some_bind, Option.bind_some,
        Option.some_inj, Prod.mk.injEq] at h
      try obtain ⟨hs', hret⟩ := h
      try rw [← hs']
      exact ⟨rfl, rfl⟩
  · rw [if_neg hs] at h
    simp only [Option.bind_eq_bind, Option.some_bind, pure, Option.some_inj,
      Prod.mk.injEq] at h
    try obtain ⟨hs', hret⟩ := h
    try rw [← hs']
    refine ⟨?_, rfl⟩
    cases hb : s.closed_done with
    | false => exact absurd hb hs
    | true => rfl

/-- With the closed-phase flag set and no pending removal indexes, a
`closed()` call performs no I/O, no state transitions, and returns no
remotes. -/
lemma closed_of_done {D : Type} (encInt : InternalMessage → Option (List Byte))
    (wenvs : Nat → WriteEnv) (s : Server D) (h1 : s.closed_done = true)
    (h2 : s.closed_indexes = []) :
    Server.closed encInt wenvs s = some (s, []) := by
  obtain ⟨lis, rem, ci, tim, fa, fb, fc⟩ := s
  simp only at h1 h2
  subst h1 h2
  simp [Server.closed, removeLoop, removeLoopAux]

/-- C3. Per-tick phase idempotence, amended: a second call of each phase
within the same tick performs no transport I/O and no Remote state
transitions (its result does not depend on the I/O environment and leaves
the server unchanged); an immediately repeated `accepted_with` or
`connected` call returns the same observed set as the first, while a second
`closed` call returns the empty set, the first call having consumed the
closed remotes. -/
theorem c3_second_call_idempotent {D : Type} (s : Server D)
    (factory factory2 : Nat → Option D) (inow inow2 : Nat)
    (envs envs2 : Nat → ReadEnv)
    (encInt encInt2 : InternalMessage → Option (List Byte))
    (wenvs wenvs2 : Nat → WriteEnv) :
    Server.accepted_with factory2 inow2 (Server.accepted_with factory inow s).1
      = Server.accepted_with factory inow s ∧
    Server.connected envs2 (Server.connected envs s).1 = Server.connected envs s ∧
    (∀ (s' : Server D) (ret : List (Remote × D)),
      Server.closed encInt wenvs s = some (s', ret) →
      Server.closed encInt2 wenvs2 s' = some (s', [])) := by
  refine ⟨?_, ?_, ?_⟩
  · rw [accepted_with_of_done factory2 inow2 _ (accepted_with_flag factory inow s)]
    exact Prod.ext_iff.mpr ⟨rfl, (accepted_with_snd factory inow s).symm⟩
  · rw [connected_of_done envs2 _ (connected_flag envs s)]
    exact Prod.ext_iff.mpr ⟨rfl, (connected_snd envs s).symm⟩
  · intro s' ret h
    obtain ⟨h1, h2⟩ := closed_result_flag encInt wenvs s s' ret h
    exact closed_of_done encInt2 wenvs2 s' h1 h2

/-- Witness for C3 (amended): on the concrete post-first-call server `s1'`,
the second `closed()` call returns the server unchanged and no remotes. -/
theorem c3_second_call_idempotent_witness :
    Server.closed encInt0 wenv0 s1' = some (s1', []) :=
  (c3_second_call_idempotent s1 (fun _ => none) (fun _ => none) 0 0
      (fun _ => ⟨false, []⟩) (fun _ => ⟨false, []⟩) encInt0 encInt0 wenv0 wenv0).2.2
    s1' [(r1', 0)] (by decide)

/-- Counterexample for C4: the remote with user data 1 is observed `Closing`
before the tick's closed phase, yet that very `closed()` call neither removes
nor returns it (it returns remotes 0 and 2 and keeps remote 1 active), so a
`Closing` remote is not always removed by the next closed phase. -/
theorem c4_closing_not_removed_next_phase :
    ((s0.remotes.get? 1).map (fun rd => (rd.2, rd.1.state))
        = some (1, RemoteState.Closing)) ∧
    (Server.closed encInt0 wenv0 s0).map (fun p =>
        (p.1.remotes.map (fun rd => rd.2), p.2.map (fun rd => rd.2)))
      = some ([1], [0, 2]) := by
  constructor <;> decide

/-- C4. Remote lifecycle, amended: `close()` in `Closing` or `Closed` fails
with `NotConnected` and leaves the state unchanged; `close()` in `Accepted`
or `Connected` succeeds and moves the state to `Closing`; one subsequent
`write()` call moves a `Closing` remote to `Closed` (its index is then
collected by the next closed phase, though the removal-loop defect of C1 can
retain it for a further tick). -/
theorem c4_remote_lifecycle (r : Remote) (encInt : InternalMessage → Option (List Byte))
    (env : WriteEnv) :
    ((r.state = RemoteState.Closing ∨ r.state = RemoteState.Closed) →
      r.close = (r, Except.error ErrKind.NotConnected)) ∧
    ((r.state = RemoteState.Accepted ∨ r.state = RemoteState.Connected) →
      r.close = ({ r with state := RemoteState.Closing }, Except.ok ())) ∧
    (r.state = RemoteState.Closing → 0 < r.timer.ticks_per_second →
      ∃ r', r.write encInt env = some r' ∧ r'.state = RemoteState.Closed) := by
  refine ⟨?_, ?_, ?_⟩
  · rintro (h | h) <;> simp [Remote.close, h]
  · rintro (h | h) <;> simp [Remote.close, h]
  · intro hst htps
    obtain ⟨res, hres⟩ := receiveF_isSome r.timer (Nat.pos_iff_ne_zero.mp htps)
      env.now env.inow r.internal_messages
    unfold Remote.write
    dsimp only
    rw [hres]
    simp only [Option.bind_eq_bind, Option.some_bind]
    refine ⟨_, rfl, ?_⟩
    unfold Remote.try_close
    have hA : ∀ (Y : Remote), Y.state = RemoteState.Closing →
        (if Y.state = RemoteState.Closing then { Y with state := RemoteState.Closed }
          else Y).state = RemoteState.Closed := by
      intro Y hY
      rw [if_pos hY]
    split
    · apply hA
      simp only [foldl_send_raw_state]
      exact hst
    · apply hA
      simp only [foldl_send_raw_state]
      exact hst

/-- Witness for C4 (amended): concrete remotes in each state. -/
theorem c4_remote_lifecycle_witness :
    (mkRemote RemoteState.Closed).close
        = (mkRemote RemoteState.Closed, Except.error ErrKind.NotConnected) ∧
    (mkRemote RemoteState.Connected).close
        = ({ mkRemote RemoteState.Connected with state := RemoteState.Closing },
            Except.ok ()) ∧
    (∃ r', (mkRemote RemoteState.Closing).write encInt0 (wenv0 0) = some r' ∧
      r'.state = RemoteState.Closed) :=
  ⟨(c4_remote_lifecycle (mkRemote RemoteState.Closed) encInt0 (wenv0 0)).1 (Or.inr rfl),
   (c4_remote_lifecycle (mkRemote RemoteState.Connected) encInt0 (wenv0 0)).2.1 (Or.inr rfl),
   (c4_remote_lifecycle (mkRemote RemoteState.Closing) encInt0 (wenv0 0)).2.2 rfl (by decide)⟩

/-- The `Pong` arm of `Timer::receive`, computed in closed form: the RTT
estimator is updated by the sample with ratio 1, and the clock-shift
estimator is updated with ratio 1/2 exactly when the sample is at most 3/2
of the post-update RTT mean. -/
lemma handlePong_eq (t : Timer) (hz : t.ticks_per_second ≠ 0) (now ptick ct st : Nat) :
    t.handlePong now ptick ct st = some (
      if pongSample t now ptick ct
          ≤ (t.average_rtt.update (pongSample t now ptick ct) 1).get * (3 / 2) then
        { t with average_rtt := t.average_rtt.update (pongSample t now ptick ct) 1,
                 clock_shift := t.clock_shift.update (pongDiff now ct st) (1 / 2) }
      else
        { t with average_rtt := t.average_rtt.update (pongSample t now ptick ct) 1 }) := by
  have hdiv : cdiv 1000 t.ticks_per_second = some (1000 / t.ticks_per_second) := by
    simp [cdiv, hz]
  unfold Timer.handlePong
  rw [hdiv]
  simp only [Option.bind_eq_bind, Option.some_bind]
  unfold pongSample pongDiff
  split <;> rfl

/-- C6. Pong processing: for every `Pong(tick, clientTime, serverTime)`
handled by `Timer::receive` at the current tick and wall-clock time `now`,
the RTT estimator is updated with ratio 1 by the sample
`(max(tickDiff-1,0)·tickDuration + max(now-clientTime-tickDuration,0)) / 2`
(wrapping 8-bit tick difference, integer tick duration `1000 / tickRate`),
and the clock-offset estimator is updated with ratio 1/2 by
`((serverTime-clientTime) + (serverTime-now)) / 2` exactly when the sample is
at most 1.5 times the RTT estimator's post-update mean, and is unchanged
otherwise. -/
theorem c6_pong_processing (t : Timer) (now inow ptick ct st : Nat)
    (h : 0 < t.ticks_per_second) :
    ∃ t' out,
      t.receiveF now inow [InternalMessage.Pong ptick ct st] = some (t', out) ∧
      t'.average_rtt = t.average_rtt.update (pongSample t now ptick ct) 1 ∧
      t'.clock_shift =
        (if pongSample t now ptick ct
            ≤ (t.average_rtt.update (pongSample t now ptick ct) 1).get * (3 / 2)
          then t.clock_shift.update (pongDiff now ct st) (1 / 2)
          else t.clock_shift) := by
  have hz : t.ticks_per_second ≠ 0 := Nat.pos_iff_ne_zero.mp h
  have hdiv : cdiv 1000 t.ticks_per_second = some (1000 / t.ticks_per_second) := by
    simp [cdiv, hz]
  unfold Timer.receiveF
  rw [hdiv]
  simp only [Option.bind_eq_bind, Option.some_bind]
  by_cases hc : inow - t.last_ping > 1000 / t.ticks_per_second * 8
  · rw [if_pos hc]
    simp only [List.foldlM_cons, List.foldlM_nil, Timer.handleMessage,
      Option.bind_eq_bind]
    rw [handlePong_eq { t with last_ping := inow } hz now ptick ct st]
    rw [show pongSample { t with last_ping := inow } now ptick ct
        = pongSample t now ptick ct from rfl]
    rw [show ({ t with last_ping := inow } : Timer).average_rtt = t.average_rtt from rfl]
    rw [show ({ t with last_ping := inow } : Timer).clock_shift = t.clock_shift from rfl]
    simp only [Option.some_bind, pure, Option.bind_some]
    split <;> exact ⟨_, _, rfl, rfl, rfl⟩
  · rw [if_neg hc]
    simp only [List.foldlM_cons, List.foldlM_nil, Timer.handleMessage,
      Option.bind_eq_bind]
    rw [handlePong_eq t hz now ptick ct st]
    simp only [Option.some_bind, pure, Option.bind_some]
    split <;> exact ⟨_, _, rfl, rfl, rfl⟩

/-- Witness for C6: a concrete pong sample on the tick-rate-10 timer; the
sample is 0, it passes the outlier check, and the clock shift becomes 5/2. -/
theorem c6_pong_processing_witness :
    ∃ t' out,
      timer10.receiveF 100 0 [InternalMessage.Pong 0 50 80] = some (t', out) ∧
      t'.average_rtt = timer10.average_rtt.update (pongSample timer10 100 0 50) 1 ∧
      t'.clock_shift =
        (if pongSample timer10 100 0 50
            ≤ (timer10.average_rtt.update (pongSample timer10 100 0 50) 1).get * (3 / 2)
          then timer10.clock_shift.update (pongDiff 100 50 80) (1 / 2)
          else timer10.clock_shift) :=
  c6_pong_processing timer10 100 0 0 50 80 (by decide)

/-- C7. Pacing: with `desiredWait = 1s / tickRate` (in nanoseconds) and
`w = accumulatedWait + elapsed`, `sleep()` blocks for `desiredWait - w` and
resets the accumulated wait to zero when `w ≤ desiredWait`, and otherwise
does not block and carries `w - desiredWait` into the next tick's budget. -/
theorem c7_pacing (t : Timer) (elapsed inow2 : Nat) (h : 0 < t.ticks_per_second) :
    (t.accumulated_wait + elapsed ≤ 1000000000 / t.ticks_per_second →
      t.sleepF elapsed inow2
        = some (1000000000 / t.ticks_per_second - (t.accumulated_wait + elapsed),
            { t with accumulated_wait := 0, last_wait := inow2 })) ∧
    (1000000000 / t.ticks_per_second < t.accumulated_wait + elapsed →
      t.sleepF elapsed inow2
        = some (0, { t with
            accumulated_wait := t.accumulated_wait + elapsed
              - 1000000000 / t.ticks_per_second,
            last_wait := inow2 })) := by
  have hz : t.ticks_per_second ≠ 0 := Nat.pos_iff_ne_zero.mp h
  constructor
  · intro hw
    simp [Timer.sleepF, cdiv, hz, hw]
  · intro hw
    simp [Timer.sleepF, cdiv, hz, Nat.not_le.mpr hw]

/-- Witness for C7: tick rate 10 (100 ms per tick), 40 ms of work; `sleep()`
blocks for 60 ms and zeroes the accumulated wait. -/
theorem c7_pacing_witness :
    timer10.sleepF 40000000 7
        = some (60000000, { timer10 with accumulated_wait := 0, last_wait := 7 }) ∧
    timer10.sleepF 140000000 7
        = some (0, { timer10 with accumulated_wait := 40000000, last_wait := 7 }) := by
  constructor
  · have hw := (c7_pacing timer10 40000000 7 (by decide)).1 (by decide)
    rw [hw]
    decide
  · have hw := (c7_pacing timer10 140000000 7 (by decide)).2 (by decide)
    rw [hw]
    decide

/-- C9. Silent drop on server-side send: when serialization of an
application message fails, `Remote::send` returns normally and leaves the
outgoing buffer (indeed the whole remote) unchanged, while `Client::send`
reports the failure as an `InvalidData` error. -/
theorem c9_send_silent_drop {α : Type} (enc : α → Option (List Byte)) (m : α)
    (h : enc m = none) (r : Remote) (c : Client) (writeRes : Except ErrKind Nat)
    (hc : c.connState = true) :
    Remote.send enc m r = r ∧
    Client.send enc writeRes m c = Except.error ErrKind.InvalidData := by
  constructor
  · simp [Remote.send, Remote.send_raw, h]
  · simp [Client.send, Client.send_raw, hc, h]

/-- Witness for C9: a concrete always-failing encoder on a connected remote
and client. -/
theorem c9_send_silent_drop_witness :
    Remote.send encNone 5 (mkRemote RemoteState.Connected)
        = mkRemote RemoteState.Connected ∧
    Client.send encNone (Except.ok 3) 5 client0 = Except.error ErrKind.InvalidData :=
  c9_send_silent_drop encNone 5 rfl (mkRemote RemoteState.Connected) client0
    (Except.ok 3) rfl

/-- C10. Timer totality: for every tick rate between 1 and 255 the divisions
in `Timer::receive` (ping cadence, tick duration) and `Timer::sleep`
(desired wait) have non-zero divisors and the operations never fail, while a
timer with tick rate 0 makes them divide by zero (modelled as `none`). -/
theorem c10_timer_divisions (t : Timer) (now inow elapsed inow2 : Nat)
    (messages : List InternalMessage) :
    (1 ≤ t.ticks_per_second → t.ticks_per_second ≤ 255 →
      (t.receiveF now inow messages).isSome ∧ (t.sleepF elapsed inow2).isSome) ∧
    (t.ticks_per_second = 0 →
      t.receiveF now inow messages = none ∧ t.sleepF elapsed inow2 = none) := by
  constructor
  · intro h1 _
    have hz : t.ticks_per_second ≠ 0 := by omega
    constructor
    · obtain ⟨res, hres⟩ := receiveF_isSome t hz now inow messages
      simp [hres]
    · simp only [Timer.sleepF, cdiv, if_neg hz, Option.bind_eq_bind, Option.some_bind]
      split <;> rfl
  · intro h0
    constructor <;> simp [Timer.receiveF, Timer.sleepF, cdiv, h0]

/-- Witness for C10: the tick-rate-10 timer never fails; the tick-rate-0
timer fails both operations. -/
theorem c10_timer_divisions_witness :
    ((timer10.receiveF 0 0 []).isSome ∧ (timer10.sleepF 0 0).isSome) ∧
    ((Timer.new 0 0).receiveF 0 0 [] = none ∧ (Timer.new 0 0).sleepF 0 0 = none) :=
  ⟨(c10_timer_divisions timer10 0 0 0 0 []).1 (by decide) (by decide),
   (c10_timer_divisions (Timer.new 0 0) 0 0 0 0 []).2 rfl⟩

end NetworkTest
